import Mathlib

/-!
Verification of the meda micro-VM manager core against its specification.

Shallow embedding conventions:
* file contents are `List Nat` (bytes) or `List Char` (text); paths and
  strings are `List Char`;
* the filesystem is an explicit `Fs` value threaded through the chunking
  code; randomness (`rand::thread_rng`) is an explicit stream of draws;
  the `DefaultHasher` digest and process liveness are explicit parameters;
* Rust `Result<T, Error>` becomes `Except Error T`; machine integers
  become `Nat` with explicit `% 2^w` / bounds where the code relies on
  wrap-around or casts.

Each definition is translated from the Rust sources in `src/`
(`chunking.rs`, `network.rs`, `image.rs`, `vm.rs`); the source location is
given in its doc comment.
-/

set_option maxRecDepth 16384

namespace Meda

/-! ## String and number helpers -/

/-- Decimal digit character for `n < 10` (used by Rust's integer `Display`). -/
def digitChar : Nat → Char
  | 0 => '0'
  | 1 => '1'
  | 2 => '2'
  | 3 => '3'
  | 4 => '4'
  | 5 => '5'
  | 6 => '6'
  | 7 => '7'
  | 8 => '8'
  | _ => '9'

/-- Numeric value of a decimal digit character. -/
def digitVal (c : Char) : Nat := c.toNat - 48

/-- Value of a digit string read left to right (inverse of decimal printing). -/
def charsToNat (ds : List Char) : Nat := ds.foldl (fun a c => a * 10 + digitVal c) 0

/-- Decimal digits of `n`, most significant first; `fuel`-bounded recursion
(`fuel > n` suffices). -/
def natDigitsAux : Nat → Nat → List Char
  | 0, _ => []
  | fuel + 1, n => if n < 10 then [digitChar n] else natDigitsAux fuel (n / 10) ++ [digitChar (n % 10)]

/-- Decimal representation of `n`, as produced by Rust's `{}` formatting of
an unsigned integer. -/
def natDigits (n : Nat) : List Char := natDigitsAux (n + 1) n

/-- Rust `format!("{:03}", n)`: decimal, zero-padded to at least 3 digits. -/
def pad3 (n : Nat) : List Char := List.replicate (3 - (natDigits n).length) '0' ++ natDigits n

/-- Lower-case hex digit character for `n < 16` (Rust `{:x}` digits). -/
def hexDigitChar : Nat → Char
  | 0 => '0'
  | 1 => '1'
  | 2 => '2'
  | 3 => '3'
  | 4 => '4'
  | 5 => '5'
  | 6 => '6'
  | 7 => '7'
  | 8 => '8'
  | 9 => '9'
  | 10 => 'a'
  | 11 => 'b'
  | 12 => 'c'
  | 13 => 'd'
  | 14 => 'e'
  | _ => 'f'

/-- Exactly `w` lower-case hex digits of `v`, most significant first.  For
`v < 16 ^ w` this equals Rust's zero-padded `{:0wx}` formatting (both call
sites in `network.rs` reduce the value below `16 ^ w` first). -/
def toHexPad : Nat → Nat → List Char
  | 0, _ => []
  | w + 1, v => toHexPad w (v / 16) ++ [hexDigitChar (v % 16)]

/-- Whitespace trim from both ends (Rust `str::trim`). -/
def trimChars (s : List Char) : List Char :=
  ((s.dropWhile Char.isWhitespace).reverse.dropWhile Char.isWhitespace).reverse

/-- First-match association-list lookup over string keys. -/
def lookupF {α : Type} (k : List Char) : List (List Char × α) → Option α
  | [] => none
  | e :: rest => if e.1 = k then some e.2 else lookupF k rest

/-- Rust `str::split(sep)`: splits at every separator, keeping empty pieces;
always returns at least one piece. -/
def splitOnChar (sep : Char) : List Char → List (List Char)
  | [] => [[]]
  | c :: rest =>
    match splitOnChar sep rest with
    | [] => [[c]]
    | p :: ps => if c = sep then [] :: p :: ps else (c :: p) :: ps

/-- First index of character `c` (Rust `str::find(char)`). -/
def charIdx (c : Char) : List Char → Option Nat
  | [] => none
  | d :: rest => if d = c then some 0 else (charIdx c rest).map (· + 1)

/-- First index of substring `needle` (Rust `str::find(&str)`). -/
def subIdx (needle : List Char) : List Char → Option Nat
  | [] => if needle = [] then some 0 else none
  | c :: rest =>
    if needle.isPrefixOf (c :: rest) then some 0 else (subIdx needle rest).map (· + 1)

/-- Rust `str::parse::<uN>()` for a bound `bound` (0-255 for `u8`,
0-4294967295 for `u32`): optional leading `+`, at least one ASCII digit,
value within bounds. -/
def parseNatLe (bound : Nat) (s : List Char) : Option Nat :=
  let digits := match s with
    | '+' :: rest => rest
    | _ => s
  if digits ≠ [] ∧ digits.all (fun c => ('0' ≤ c ∧ c ≤ '9' : Bool)) then
    let v := charsToNat digits
    if v ≤ bound then some v else none
  else none

/-- Rust path `file_name()`: the component after the last `/`. -/
def fileNameOf (p : List Char) : List Char := (p.reverse.takeWhile (· ≠ '/')).reverse

/-- `Path::join` for a directory and a file name. -/
def pathJoin (dir file : List Char) : List Char := dir ++ '/' :: file

/-! ## Error type

Mirrors `error.rs` `enum Error`; `InvalidImageName` and `ImageNotFound`
are the variants constructed in `image.rs` (lines 73 and 109).  Errors
carry their message text. -/

inductive Error where
  | IoError : List Char → Error
  | VmNotFound : List Char → Error
  | VmNotRunning : List Char → Error
  | VmAlreadyExists : List Char → Error
  | InvalidImageName : List Char → Error
  | ImageNotFound : List Char → Error
  | Other : List Char → Error
deriving DecidableEq

/-! ## Filesystem model

Directories and files touched by the chunking codec, as an explicit
state.  `write` prepends, `read` takes the first (most recent) match. -/

structure Fs where
  dirs : List (List Char)
  files : List (List Char × List Nat)
deriving DecidableEq

/-- `fs::read`: content of the file at `p`, if it exists. -/
def Fs.read (fs : Fs) (p : List Char) : Option (List Nat) := lookupF p fs.files

/-- `File::create` + `write_all`: (over)write the file at `p`. -/
def Fs.write (fs : Fs) (p : List Char) (c : List Nat) : Fs :=
  ⟨fs.dirs, (p, c) :: fs.files⟩

/-- `fs::create_dir_all`. -/
def Fs.mkDirAll (fs : Fs) (p : List Char) : Fs := ⟨p :: fs.dirs, fs.files⟩

/-! ## Chunking codec (`chunking.rs`) -/

/-- `ChunkingConfig` (chunking.rs lines 10-30). -/
structure ChunkingConfig where
  min_chunk_threshold : Nat
  small_chunk_size : Nat
  medium_chunk_size : Nat
  large_chunk_size : Nat
  large_file_threshold : Nat
  medium_file_threshold : Nat
  oras_concurrency : Nat
  oras_push_concurrency : Option Nat
  oras_pull_concurrency : Option Nat
deriving DecidableEq

/-- `ChunkingConfig::default` (chunking.rs lines 32-46). -/
def ChunkingConfig.default : ChunkingConfig where
  min_chunk_threshold := 100 * 1024 * 1024
  small_chunk_size := 100 * 1024 * 1024
  medium_chunk_size := 250 * 1024 * 1024
  large_chunk_size := 500 * 1024 * 1024
  medium_file_threshold := 2 * 1024 * 1024 * 1024
  large_file_threshold := 10 * 1024 * 1024 * 1024
  oras_concurrency := 10
  oras_push_concurrency := none
  oras_pull_concurrency := none

/-- `ChunkMetadata` (chunking.rs lines 61-68). -/
structure ChunkMetadata where
  original_filename : List Char
  total_chunks : Nat
  chunk_size : Nat
  total_size : Nat
  sha256 : Option (List Char)
deriving DecidableEq

/-- `ChunkInfo` (chunking.rs lines 71-76). -/
structure ChunkInfo where
  chunk_path : List Char
  chunk_index : Nat
  chunk_size : Nat
deriving DecidableEq

/-- `FileChunker::should_chunk_file` (chunking.rs lines 95-98): true iff
the file's size is at least `min_chunk_threshold`; `fs::metadata` fails if
the file is absent. -/
def should_chunk_file (cfg : ChunkingConfig) (file_path : List Char) (fs : Fs) :
    Except Error Bool :=
  match fs.read file_path with
  | none => .error (.IoError ("metadata".toList))
  | some content => .ok (decide (cfg.min_chunk_threshold ≤ content.length))

/-- `FileChunker::get_chunk_size` (chunking.rs lines 101-109). -/
def get_chunk_size (cfg : ChunkingConfig) (file_size : Nat) : Nat :=
  if cfg.large_file_threshold ≤ file_size then cfg.large_chunk_size
  else if cfg.medium_file_threshold ≤ file_size then cfg.medium_chunk_size
  else cfg.small_chunk_size

/-- The `for chunk_index in 0..total_chunks` loop of `chunk_file`
(chunking.rs lines 148-179): sequential `read_exact` of
`min(chunk_size, file_size - i*chunk_size)` bytes is the corresponding
slice of the source content; each slice is written to its chunk file. -/
def chunkLoop (content : List Nat) (chunk_size : Nat) (mk : Nat → List Char) :
    Nat → Nat → Fs → List ChunkInfo × Fs
  | _, 0, fs => ([], fs)
  | i, r + 1, fs =>
    let bytes_to_read := min chunk_size (content.length - i * chunk_size)
    let data := (content.drop (i * chunk_size)).take bytes_to_read
    let path := mk i
    let rec_result := chunkLoop content chunk_size mk (i + 1) r (fs.write path data)
    (⟨path, i, bytes_to_read⟩ :: rec_result.1, rec_result.2)

/-- `FileChunker::chunk_file` (chunking.rs lines 112-190).  Returns the
metadata and chunk list together with the updated filesystem; the `json`
flag only controls logging and is omitted. -/
def chunk_file (cfg : ChunkingConfig) (file_path output_dir : List Char) (fs : Fs) :
    Except Error (ChunkMetadata × List ChunkInfo) × Fs :=
  match fs.read file_path with
  | none => (.error (.IoError ("metadata".toList)), fs)
  | some content =>
    match should_chunk_file cfg file_path fs with
    | .error e => (.error e, fs)
    | .ok should =>
      if should = false then
        (.error (.Other ("File is below chunking threshold".toList)), fs)
      else
        let file_size := content.length
        let chunk_size := get_chunk_size cfg file_size
        let total_chunks := (file_size + chunk_size - 1) / chunk_size
        let filename := fileNameOf file_path
        let fs1 := fs.mkDirAll output_dir
        let mk := fun i => pathJoin output_dir (filename ++ (".chunk.".toList) ++ pad3 i)
        let result := chunkLoop content chunk_size mk 0 total_chunks fs1
        (.ok (⟨filename, total_chunks, chunk_size, file_size, none⟩, result.1), result.2)

/-- Stable insertion of a chunk into a list sorted by `chunk_index`
(`sort_by_key` in chunking.rs line 210). -/
def insertByIndex (c : ChunkInfo) : List ChunkInfo → List ChunkInfo
  | [] => [c]
  | d :: ds => if c.chunk_index < d.chunk_index then c :: d :: ds else d :: insertByIndex c ds

/-- Sorting of the chunk list by `chunk_index` (chunking.rs lines 209-210). -/
def sortByIndex : List ChunkInfo → List ChunkInfo
  | [] => []
  | c :: cs => insertByIndex c (sortByIndex cs)

/-- The per-chunk loop of `reassemble_chunks` (chunking.rs lines 225-256):
checks the running index, opens each chunk file and `read_exact`s
`chunk_size` bytes, accumulating output bytes and the written total. -/
def reasmLoop (fs : Fs) : List ChunkInfo → Nat → List Nat → Nat → Except Error (List Nat × Nat)
  | [], _, out, tw => .ok (out, tw)
  | c :: rest, i, out, tw =>
    if c.chunk_index ≠ i then .error (.Other ("Chunk sequence error".toList))
    else
      match fs.read c.chunk_path with
      | none => .error (.Other ("Chunk file not found".toList))
      | some data =>
        if data.length < c.chunk_size then .error (.IoError ("read_exact".toList))
        else reasmLoop fs rest (i + 1) (out ++ data.take c.chunk_size) (tw + c.chunk_size)

/-- `FileChunker::reassemble_chunks` (chunking.rs lines 193-276).  The
bytes streamed to `output_path` are returned as the success value; the
final size check compares the written total with the descriptor. -/
def reassemble_chunks (chunks : List ChunkInfo) (metadata : ChunkMetadata) (fs : Fs) :
    Except Error (List Nat) :=
  let sorted := sortByIndex chunks
  if sorted.length ≠ metadata.total_chunks then .error (.Other ("Missing chunks".toList))
  else
    match reasmLoop fs sorted 0 [] 0 with
    | .error e => .error e
    | .ok (out, tw) =>
      if tw ≠ metadata.total_size then
        .error (.Other ("Size mismatch after reassembly".toList))
      else .ok out

/-! ## Network allocator (`network.rs`)

The VM root directory is modelled as a list of entries; for each entry we
record whether it is a directory and the contents of its `subnet` and
`tapdev` files (absent / unreadable files are `none`). -/

structure VmDirEntry where
  is_dir : Bool
  subnet_file : Option (List Char)
  tapdev_file : Option (List Char)
deriving DecidableEq

/-- `generate_random_octet` (network.rs lines 19-22):
`16 + rng.gen::<u8>() % 200`.  The parameter `r` is the raw draw; `% 256`
embeds the `u8` value. -/
def generate_random_octet (r : Nat) : Nat := 16 + r % 256 % 200

/-- The subnet-file scan of `generate_unique_subnet` (network.rs lines
28-47): for a directory entry with a readable `subnet` file, trim it,
require the `192.168.` form, and parse the final octet as a `u8`. -/
def entrySubnetOctet (e : VmDirEntry) : Option Nat :=
  if e.is_dir then
    e.subnet_file.bind (fun s =>
      let t := trimChars s
      if ("192.168.".toList).isPrefixOf t then
        parseNatLe 255 (t.drop 8)
      else none)
  else none

/-- Octets already recorded under the VM root (network.rs lines 26-47). -/
def used_subnets (entries : List VmDirEntry) : List Nat := entries.filterMap entrySubnetOctet

/-- `format!("192.168.{}", octet)`. -/
def subnetStr (octet : Nat) : List Char := "192.168.".toList ++ natDigits octet

/-- The retry loop of `generate_unique_subnet` (network.rs lines 50-59):
draw an octet, accept it if unused, try at most `fuel` times.  `i` is the
index into the draw stream. -/
def subnetLoop (used : List Nat) (draws : Nat → Nat) : Nat → Nat → Except Error (List Char)
  | _, 0 => .error (.Other ("Could not generate a unique subnet after multiple attempts".toList))
  | i, fuel + 1 =>
    let octet := generate_random_octet (draws i)
    if octet ∈ used then subnetLoop used draws (i + 1) fuel else .ok (subnetStr octet)

/-- `generate_unique_subnet` (network.rs lines 24-65), with the RNG as an
explicit stream of `u8` draws and `max_attempts = 200`. -/
def generate_unique_subnet (entries : List VmDirEntry) (draws : Nat → Nat) :
    Except Error (List Char) :=
  subnetLoop (used_subnets entries) draws 0 200

/-- Extraction of a `tap-` token from one line of `ip link show` output
(network.rs lines 74-83): find the first `tap-`, then cut at the following
colon; a line without a colon after `tap-` contributes nothing. -/
def parseTapLine (line : List Char) : Option (List Char) :=
  (subIdx ("tap-".toList) line).bind (fun k =>
    let part := line.drop k
    (charIdx ':' part).map (fun j => part.take j))

/-- The in-use TAP names of `generate_unique_tap_name` (network.rs lines
69-86): parsed from `ip link show` output only; `none` models a failed or
unsuccessful command, which leaves the set empty. -/
def usedTapNamesOf (ipOutput : Option (List (List Char))) : List (List Char) :=
  match ipOutput with
  | none => []
  | some lines => lines.filterMap parseTapLine

/-- The primary candidate `format!("tap-{:08x}", (hash % 0xFFFFFFFF) as u32)`
(network.rs line 104); `h` is the `DefaultHasher` digest. -/
def tapCandidate (h : Nat) : List Char := "tap-".toList ++ toHexPad 8 (h % 4294967295)

/-- A fallback name `format!("tap-{:07x}{:x}", (hash % 0xFFFFFFF) as u32, i % 16)`
(network.rs line 113). -/
def tapFallback (h i : Nat) : List Char :=
  "tap-".toList ++ toHexPad 7 (h % 268435455) ++ [hexDigitChar (i % 16)]

/-- The fallback loop `for i in 1..=1000` of `generate_unique_tap_name`
(network.rs lines 112-117). -/
def tapLoop (used : List (List Char)) (h : Nat) : Nat → Nat → Except Error (List Char)
  | _, 0 => .error (.Other ("Could not generate a unique TAP device name after extensive attempts".toList))
  | i, fuel + 1 =>
    if tapFallback h i ∈ used then tapLoop used h (i + 1) fuel else .ok (tapFallback h i)

/-- `generate_unique_tap_name` (network.rs lines 67-122).  Only the kernel
interface table (`ip link show`) is consulted for in-use names; `h` is the
hash of `(vm_name, wall-clock seconds)`. -/
def generate_unique_tap_name (ipOutput : Option (List (List Char))) (h : Nat) :
    Except Error (List Char) :=
  let used := usedTapNamesOf ipOutput
  if tapCandidate h ∈ used then tapLoop used h 1 1000 else .ok (tapCandidate h)

/-- The `tapdev`-file scan of `cleanup_orphaned_tap_devices` (network.rs
lines 148-159): trimmed contents of every readable `tapdev` file under a
VM directory.  `generate_unique_tap_name` does not consult this set. -/
def vmTapdevNames (entries : List VmDirEntry) : List (List Char) :=
  entries.filterMap (fun e => if e.is_dir then e.tapdev_file.map trimChars else none)

/-- Kernel interface-name shape required by the spec:
`^tap-[0-9a-f]{7,8}[0-9a-f]?$`, i.e. `tap-` followed by 7 to 9 lower-case
hex digits. -/
def tapNameRegex (s : List Char) : Bool :=
  match s with
  | 't' :: 'a' :: 'p' :: '-' :: ds =>
    ds.all (fun c => (('0' ≤ c ∧ c ≤ '9') ∨ ('a' ≤ c ∧ c ≤ 'f') : Bool)) &&
      decide (7 ≤ ds.length) && decide (ds.length ≤ 9)
  | _ => false

/-! ## Image references and `run` (`image.rs`) -/

/-- `ImageRef` (image.rs lines 50-55). -/
structure ImageRef where
  registry : List Char
  org : List Char
  name : List Char
  tag : List Char
deriving DecidableEq

/-- The name/tag split of `ImageRef::parse` (image.rs lines 76-80): split
at the first `:`; without a colon the tag defaults to `latest`. -/
def splitNameTag : List Char → List Char × List Char
  | [] => ([], "latest".toList)
  | c :: rest =>
    if c = ':' then ([], rest)
    else
      let nt := splitNameTag rest
      (c :: nt.1, nt.2)

/-- `ImageRef::parse` (image.rs lines 58-88). -/
def ImageRef.parse (image default_registry default_org : List Char) : Except Error ImageRef :=
  let parts := splitOnChar '/' image
  match parts with
  | [p0] =>
    let nt := splitNameTag p0
    .ok ⟨default_registry, default_org, nt.1, nt.2⟩
  | [p0, p1] =>
    if '.' ∈ p0 ∨ p0 = "ghcr.io".toList then
      let nt := splitNameTag p1
      .ok ⟨p0, default_org, nt.1, nt.2⟩
    else
      let nt := splitNameTag p1
      .ok ⟨default_registry, p0, nt.1, nt.2⟩
  | [p0, p1, p2] =>
    let nt := splitNameTag p2
    .ok ⟨p0, p1, nt.1, nt.2⟩
  | _ => .error (.InvalidImageName image)

/-- Text files of a directory as an association list (filename to text). -/
def FileMap : Type := List (List Char × List Char)

/-- Write (overwrite) a text file in a `FileMap`. -/
def writeF (k v : List Char) (m : FileMap) : FileMap := (k, v) :: m

/-- First-match lookup in a `FileMap`. -/
def lookupT (k : List Char) : FileMap → Option (List Char)
  | [] => none
  | e :: rest => if e.1 = k then some e.2 else lookupT k rest

/-- The fresh `meta-data` written by `run_from_image` (image.rs line 1791):
`format!("instance-id: {}\nlocal-hostname: {}\n", vm_name, vm_name)`. -/
def metaDataFor (vm_name : List Char) : List Char :=
  "instance-id: ".toList ++ vm_name ++ "\nlocal-hostname: ".toList ++ vm_name ++ "\n".toList

/-- The fresh cloud-init `network-config` written by `run_from_image`
(image.rs lines 1836-1849), binding by MAC to `<subnet>.2/24`. -/
def networkConfigFor (mac subnet : List Char) : List Char :=
  "version: 2\nethernets:\n  ens4:\n    match:\n       macaddress: ".toList ++ mac ++
    "\n    addresses: [".toList ++ subnet ++ ".2/24]\n    gateway4: ".toList ++ subnet ++
    ".1\n    set-name: ens4\n    nameservers:\n      addresses: [8.8.8.8, 1.1.1.1]\n".toList

/-- The artifact-copy loop of `run_from_image` (image.rs lines 1760-1773):
only the `user-data` artifact is copied from the image directory (when its
file exists); `meta-data`, `network-config` and all other artifacts are
skipped. -/
def copyUserDataStep (imageFiles : FileMap) (acc : FileMap) (a : List Char × List Char) :
    FileMap :=
  if a.1 = "user-data".toList then
    match lookupT a.2 imageFiles with
    | some content => writeF a.2 content acc
    | none => acc
  else acc

/-- The cloud-init preparation of `run_from_image` (image.rs lines
1760-1851), from the artifact map and image directory to the VM directory
and `ci/` directory contents.  `user_data_override` models
`options.user_data_path` (as the content copied from that path);
`default_user_data` is the generated cloud-config with the derived
password hash; `subnet`, `tap_name` and `mac` are the freshly allocated
instance identity.  Binary artifacts (`rootfs.raw`, `ci.iso`) and the
launcher script are outside this model. -/
def run_from_image_cloudinit (artifacts : List (List Char × List Char)) (imageFiles : FileMap)
    (user_data_override : Option (List Char))
    (vm_name subnet tap_name memory cpus disk_size mac default_user_data : List Char) :
    FileMap × FileMap :=
  let vm1 := artifacts.foldl (copyUserDataStep imageFiles) []
  let vm2 := writeF ("disk_size".toList) disk_size (writeF ("cpus".toList) cpus
    (writeF ("memory".toList) memory (writeF ("tapdev".toList) tap_name
      (writeF ("subnet".toList) subnet vm1))))
  let vm3 :=
    match lookupT ("meta-data".toList) vm2 with
    | none => writeF ("meta-data".toList) (metaDataFor vm_name) vm2
    | some _ => vm2
  let vm4 :=
    match user_data_override with
    | some content => writeF ("user-data".toList) content vm3
    | none =>
      match lookupT ("user-data".toList) vm3 with
      | none => writeF ("user-data".toList) default_user_data vm3
      | some _ => vm3
  let vm5 := writeF ("mac".toList) mac vm4
  let ci1 := [("meta-data".toList), ("user-data".toList)].foldl (fun acc f =>
    match lookupT f vm5 with
    | some c => writeF f c acc
    | none => acc) []
  let ci2 :=
    match lookupT ("network-config".toList) ci1 with
    | none => writeF ("network-config".toList) (networkConfigFor mac subnet) ci1
    | some _ => ci1
  (vm5, ci2)

/-! ## VM lifecycle (`vm.rs`) -/

/-- `check_vm_running` (vm.rs lines 850-865): the `pid` file exists, its
trimmed contents parse as a `u32`, and `ps -p` reports the process alive.
`alive` is the `check_process_running` oracle. -/
def check_vm_running (pidFile : Option (List Char)) (alive : Nat → Bool) : Bool :=
  match pidFile with
  | none => false
  | some s =>
    match parseNatLe 4294967295 (trimChars s) with
    | some pid => alive pid
    | none => false

/-- External effects performed by `stop`. -/
inductive StopEffect where
  | sigterm : Nat → StopEffect
  | sleep500 : StopEffect
  | sigkill : Nat → StopEffect
  | removePidFile : StopEffect
deriving DecidableEq

/-- The `{success, message}` envelope printed in JSON mode (`VmResult`). -/
structure VmResultMsg where
  success : Bool
  message : List Char
deriving DecidableEq

/-- The graceful-shutdown wait of `stop` (vm.rs lines 756-761): up to 10
slices of 500 ms; `a k` is the `check_process_running` result of the k-th
liveness probe after SIGTERM.  Returns the sleep effects and the index of
the next (post-loop) probe. -/
def termWait (a : Nat → Bool) : Nat → Nat → List StopEffect × Nat
  | k, 0 => ([], k)
  | k, fuel + 1 =>
    if a k = false then ([], k + 1)
    else
      let r := termWait a (k + 1) fuel
      (StopEffect.sleep500 :: r.1, r.2)

/-- `stop` (vm.rs lines 722-787).  `vmExists` models `vm_dir.exists()`,
`pidFile` the `pid` file contents, `alive` the initial
`check_process_running` oracle and `a` the post-SIGTERM probes.  Returns
the external effects and the JSON envelopes printed. -/
def stop (name : List Char) (vmExists : Bool) (pidFile : Option (List Char))
    (alive : Nat → Bool) (a : Nat → Bool) (json : Bool) :
    Except Error (List StopEffect × List VmResultMsg) :=
  if vmExists = false then .error (.VmNotFound name)
  else if check_vm_running pidFile alive = false then
    if json then .ok ([], [⟨false, "VM ".toList ++ name ++ " is not running".toList⟩])
    else .error (.VmNotRunning name)
  else
    let killEffects :=
      match pidFile with
      | none => []
      | some s =>
        match parseNatLe 4294967295 (trimChars s) with
        | none => []
        | some pid =>
          let w := termWait a 0 10
          StopEffect.sigterm pid :: w.1 ++
            (if a w.2 then [StopEffect.sigkill pid] else [])
    .ok (killEffects ++ [StopEffect.removePidFile],
      if json then [⟨true, "Successfully stopped VM: ".toList ++ name⟩] else [])

/-! ## Helper lemmas: decimal printing -/

theorem digitVal_digitChar (n : Nat) (h : n < 10) : digitVal (digitChar n) = n := by
  interval_cases n <;> rfl

theorem charsToNat_append_singleton (l : List Char) (c : Char) :
    charsToNat (l ++ [c]) = charsToNat l * 10 + digitVal c := by
  simp [charsToNat, List.foldl_append]

theorem charsToNat_natDigitsAux : ∀ fuel n, n < fuel → charsToNat (natDigitsAux fuel n) = n := by
  intro fuel
  induction fuel with
  | zero => intro n h; exact absurd h (Nat.not_lt_zero n)
  | succ fuel ih =>
    intro n h
    unfold natDigitsAux
    by_cases h10 : n < 10
    · simp only [h10, if_true]
      simp [charsToNat, digitVal_digitChar n h10]
    · simp only [h10, if_false]
      rw [charsToNat_append_singleton, ih (n / 10) (by omega),
        digitVal_digitChar (n % 10) (by omega)]
      omega

theorem charsToNat_natDigits (n : Nat) : charsToNat (natDigits n) = n :=
  charsToNat_natDigitsAux (n + 1) n (by omega)

theorem charsToNat_cons_zero (t : List Char) : charsToNat ('0' :: t) = charsToNat t := by
  have h0 : digitVal '0' = 0 := rfl
  simp [charsToNat, h0]

theorem charsToNat_zeros_append (k : Nat) (l : List Char) :
    charsToNat (List.replicate k '0' ++ l) = charsToNat l := by
  induction k with
  | zero => simp
  | succ k ih => simpa [List.replicate_succ, charsToNat_cons_zero] using ih

theorem charsToNat_pad3 (n : Nat) : charsToNat (pad3 n) = n := by
  rw [pad3, charsToNat_zeros_append, charsToNat_natDigits]

theorem pad3_injective : Function.Injective pad3 := by
  intro m n h
  have := congrArg charsToNat h
  rwa [charsToNat_pad3, charsToNat_pad3] at this

/-! ## Helper lemmas: filesystem and lookup -/

theorem lookupF_append_some {α : Type} (k : List Char) (l1 l2 : List (List Char × α)) (v : α)
    (h : lookupF k l1 = some v) : lookupF k (l1 ++ l2) = some v := by
  induction l1 with
  | nil => simp [lookupF] at h
  | cons e rest ih =>
    simp only [lookupF, List.cons_append] at h ⊢
    by_cases he : e.1 = k
    · simpa [he] using h
    · simp only [he, if_false] at h ⊢
      exact ih h

theorem lookupF_of_mem {α : Type} {l : List (List Char × α)} {p : List Char} {v : α}
    (hmem : (p, v) ∈ l) (hnd : (l.map Prod.fst).Nodup) : lookupF p l = some v := by
  induction l with
  | nil => cases hmem
  | cons e rest ih =>
    simp only [List.map_cons, List.nodup_cons] at hnd
    rcases List.mem_cons.mp hmem with h | h
    · subst h
      simp [lookupF]
    · have hne : e.1 ≠ p := by
        intro hcontra
        exact hnd.1 (hcontra ▸ (List.mem_map.mpr ⟨(p, v), h, rfl⟩))
      simp only [lookupF, hne, if_false]
      exact ih h hnd.2

theorem Fs.read_write (fs : Fs) (p q : List Char) (c : List Nat) :
    (fs.write p c).read q = if p = q then some c else fs.read q := by
  simp [Fs.read, Fs.write, lookupF]

/-! ## Helper lemmas: the chunking loop -/

theorem take_min_eq_take (l : List Nat) (cs k : Nat) :
    (l.drop k).take (min cs (l.length - k)) = (l.drop k).take cs := by
  apply List.take_eq_take.mpr
  simp only [List.length_drop]
  omega

theorem chunkLoop_fst (content : List Nat) (cs : Nat) (mk : Nat → List Char) :
    ∀ r i fs, (chunkLoop content cs mk i r fs).1 =
      (List.range r).map (fun k =>
        ⟨mk (i + k), i + k, min cs (content.length - (i + k) * cs)⟩) := by
  intro r
  induction r with
  | zero => intro i fs; rfl
  | succ r ih =>
    intro i fs
    simp only [chunkLoop, ih, List.range_succ_eq_map, List.map_cons, List.map_map]
    refine List.cons_eq_cons.mpr ⟨by simp, ?_⟩
    apply List.map_congr_left
    intro k _
    simp only [Function.comp_apply, Nat.succ_eq_add_one]
    have h : i + (k + 1) = i + 1 + k := by omega
    rw [h]

theorem chunkLoop_snd_files (content : List Nat) (cs : Nat) (mk : Nat → List Char) :
    ∀ r i fs, (chunkLoop content cs mk i r fs).2.files =
      ((List.range r).map (fun k =>
        (mk (i + k), (content.drop ((i + k) * cs)).take cs))).reverse ++ fs.files := by
  intro r
  induction r with
  | zero => intro i fs; rfl
  | succ r ih =>
    intro i fs
    simp only [chunkLoop, ih, List.range_succ_eq_map, List.map_cons, List.map_map,
      List.reverse_cons, Fs.write]
    rw [List.append_assoc]
    simp only [List.singleton_append, take_min_eq_take]
    have hmap : (List.range r).map
          ((fun k => (mk (i + k), (content.drop ((i + k) * cs)).take cs)) ∘ Nat.succ) =
        (List.range r).map
          (fun k => (mk (i + 1 + k), (content.drop ((i + 1 + k) * cs)).take cs)) := by
      apply List.map_congr_left
      intro k _
      simp only [Function.comp_apply, Nat.succ_eq_add_one]
      have h : i + (k + 1) = i + 1 + k := by omega
      rw [h]
    rw [hmap]
    simp

theorem chunkLoop_snd_dirs (content : List Nat) (cs : Nat) (mk : Nat → List Char) :
    ∀ r i fs, (chunkLoop content cs mk i r fs).2.dirs = fs.dirs := by
  intro r
  induction r with
  | zero => intro i fs; rfl
  | succ r ih => intro i fs; simp [chunkLoop, ih, Fs.write]

theorem chunkLoop_read (content : List Nat) (cs : Nat) (mk : Nat → List Char)
    (hinj : Function.Injective mk) (r i : Nat) (fs : Fs) (j : Nat) (h1 : i ≤ j)
    (h2 : j < i + r) :
    ((chunkLoop content cs mk i r fs).2).read (mk j) =
      some ((content.drop (j * cs)).take cs) := by
  have hfiles := chunkLoop_snd_files content cs mk r i fs
  rw [Fs.read, hfiles]
  apply lookupF_append_some
  apply lookupF_of_mem
  · rw [List.mem_reverse, List.mem_map]
    exact ⟨j - i, by rw [List.mem_range]; omega, by rw [show i + (j - i) = j by omega]⟩
  · rw [List.map_reverse, List.nodup_reverse, List.map_map]
    refine List.Nodup.map ?_ (List.nodup_range r)
    intro a b hab
    have := hinj hab
    omega

/-- Concatenating the `cs`-sized slices of `l` (one per chunk index, where
the chunk count is `ceil(length / cs)`) reproduces `l`. -/
theorem join_chunk_slices (cs : Nat) (hcs : 0 < cs) :
    ∀ t (l : List Nat), (l.length + cs - 1) / cs = t →
      ((List.range t).map (fun j => (l.drop (j * cs)).take cs)).flatten = l := by
  intro t
  induction t with
  | zero =>
    intro l ht
    have hlen : l.length = 0 := by
      have := Nat.div_eq_zero_iff (by omega : 0 < cs) |>.mp ht
      omega
    rw [List.eq_nil_of_length_eq_zero hlen]
    rfl
  | succ t ih =>
    intro l ht
    by_cases hle : l.length ≤ cs
    · have ht0 : t = 0 := by
        have hq : (l.length + cs - 1) / cs < 2 := by
          rw [Nat.div_lt_iff_lt_mul hcs]
          omega
        omega
      subst ht0
      have h1 : List.range 1 = [0] := rfl
      simp only [h1, List.map_cons, List.map_nil, List.flatten_cons,
        List.flatten_nil, List.append_nil, Nat.zero_mul, List.drop_zero]
      exact List.take_of_length_le hle
    · have hd : ((l.drop cs).length + cs - 1) / cs = t := by
        have hlen : (l.drop cs).length = l.length - cs := List.length_drop cs l
        have harith : l.length + cs - 1 = (l.length - cs + cs - 1) + cs := by omega
        rw [harith, Nat.add_div_right _ hcs] at ht
        rw [hlen]
        omega
      have hrec := ih (l.drop cs) hd
      rw [List.range_succ_eq_map, List.map_cons, List.map_map, List.flatten_cons]
      have hshift : ∀ k : Nat, (l.drop ((k + 1) * cs)).take cs =
          ((l.drop cs).drop (k * cs)).take cs := by
        intro k
        rw [List.drop_drop]
        congr 2
        ring
      have hmap : (List.range t).map ((fun j => (l.drop (j * cs)).take cs) ∘ Nat.succ) =
          (List.range t).map (fun k => ((l.drop cs).drop (k * cs)).take cs) := by
        apply List.map_congr_left
        intro k _
        simp only [Function.comp_apply, Nat.succ_eq_add_one]
        exact hshift k
      rw [hmap, hrec]
      simp only [Nat.zero_mul, List.drop_zero]
      exact List.take_append_drop cs l

/-! ## Helper lemmas: the reassembly loop and sorting -/

theorem reasmLoop_cons (fs : Fs) (c : ChunkInfo) (rest : List ChunkInfo) (i : Nat)
    (out : List Nat) (tw : Nat) :
    reasmLoop fs (c :: rest) i out tw =
      if c.chunk_index ≠ i then .error (.Other ("Chunk sequence error".toList))
      else
        match fs.read c.chunk_path with
        | none => .error (.Other ("Chunk file not found".toList))
        | some data =>
          if data.length < c.chunk_size then .error (.IoError ("read_exact".toList))
          else reasmLoop fs rest (i + 1) (out ++ data.take c.chunk_size) (tw + c.chunk_size) :=
  rfl

theorem reasmLoop_ok_of_good (fs : Fs) (pathOf : Nat → List Char) (dat : Nat → List Nat) :
    ∀ r i out tw, (∀ k, k < r → fs.read (pathOf (i + k)) = some (dat (i + k))) →
      reasmLoop fs ((List.range r).map (fun k => ⟨pathOf (i + k), i + k, (dat (i + k)).length⟩))
          i out tw =
        .ok (out ++ ((List.range r).map (fun k => dat (i + k))).flatten,
          tw + ((List.range r).map (fun k => (dat (i + k)).length)).sum) := by
  intro r
  induction r with
  | zero => intro i out tw _; simp [reasmLoop]
  | succ r ih =>
    intro i out tw hread
    have hr0 : fs.read (pathOf i) = some (dat i) := by
      have := hread 0 (by omega)
      simpa using this
    rw [List.range_succ_eq_map, List.map_cons, List.map_map]
    rw [reasmLoop_cons]
    simp only [Nat.add_zero, hr0]
    rw [if_neg (by omega : ¬ i ≠ i),
      if_neg (by omega : ¬ (dat i).length < (dat i).length), List.take_length]
    have hshift : (List.range r).map
          ((fun k => (⟨pathOf (i + k), i + k, (dat (i + k)).length⟩ : ChunkInfo)) ∘ Nat.succ) =
        (List.range r).map
          (fun k => ⟨pathOf (i + 1 + k), i + 1 + k, (dat (i + 1 + k)).length⟩) := by
      apply List.map_congr_left
      intro k _
      simp only [Function.comp_apply, Nat.succ_eq_add_one]
      have h : i + (k + 1) = i + 1 + k := by omega
      rw [h]
    rw [hshift,
      ih (i + 1) (out ++ dat i) (tw + (dat i).length)
        (fun k hk => by
          have := hread (k + 1) (by omega)
          rw [show i + (k + 1) = i + 1 + k by omega] at this
          exact this)]
    have h1 : (List.range r).map ((fun k => dat (i + k)) ∘ Nat.succ) =
        (List.range r).map (fun k => dat (i + 1 + k)) := by
      apply List.map_congr_left
      intro k _
      simp only [Function.comp_apply, Nat.succ_eq_add_one]
      rw [show i + (k + 1) = i + 1 + k by omega]
    have h2 : (List.range r).map ((fun k => (dat (i + k)).length) ∘ Nat.succ) =
        (List.range r).map (fun k => (dat (i + 1 + k)).length) := by
      apply List.map_congr_left
      intro k _
      simp only [Function.comp_apply, Nat.succ_eq_add_one]
      rw [show i + (k + 1) = i + 1 + k by omega]
    simp only [List.map_cons, List.map_map, List.flatten_cons, List.sum_cons, Nat.add_zero,
      h1, h2, List.append_assoc, Except.ok.injEq, Prod.mk.injEq]
    exact ⟨trivial, by omega⟩

theorem reasmLoop_ok_indices (fs : Fs) :
    ∀ (l : List ChunkInfo) (i : Nat) (out : List Nat) (tw : Nat) (x : List Nat × Nat),
      reasmLoop fs l i out tw = .ok x → l.map ChunkInfo.chunk_index = List.range' i l.length := by
  intro l
  induction l with
  | nil => intro i out tw x _; rfl
  | cons c rest ih =>
    intro i out tw x h
    rw [reasmLoop_cons] at h
    by_cases hidx : c.chunk_index ≠ i
    · rw [if_pos hidx] at h; cases h
    · rw [if_neg hidx] at h
      push_neg at hidx
      cases hread : fs.read c.chunk_path with
      | none => simp [hread] at h
      | some data =>
        simp only [hread] at h
        by_cases hlen : data.length < c.chunk_size
        · rw [if_pos hlen] at h; cases h
        · rw [if_neg hlen] at h
          have := ih (i + 1) (out ++ data.take c.chunk_size) (tw + c.chunk_size) x h
          simp only [List.map_cons, List.length_cons, hidx, this]
          rfl

theorem reasmLoop_ok_total (fs : Fs) :
    ∀ (l : List ChunkInfo) (i : Nat) (out : List Nat) (tw : Nat) (o : List Nat) (t : Nat),
      reasmLoop fs l i out tw = .ok (o, t) →
      t = tw + (l.map ChunkInfo.chunk_size).sum := by
  intro l
  induction l with
  | nil =>
    intro i out tw o t h
    simp only [reasmLoop, Except.ok.injEq, Prod.mk.injEq] at h
    simp [← h.2]
  | cons c rest ih =>
    intro i out tw o t h
    rw [reasmLoop_cons] at h
    by_cases hidx : c.chunk_index ≠ i
    · rw [if_pos hidx] at h; cases h
    · rw [if_neg hidx] at h
      cases hread : fs.read c.chunk_path with
      | none => simp [hread] at h
      | some data =>
        simp only [hread] at h
        by_cases hlen : data.length < c.chunk_size
        · rw [if_pos hlen] at h; cases h
        · rw [if_neg hlen] at h
          have := ih (i + 1) (out ++ data.take c.chunk_size) (tw + c.chunk_size) o t h
          simp only [List.map_cons, List.sum_cons]
          omega

theorem insertByIndex_length (c : ChunkInfo) (l : List ChunkInfo) :
    (insertByIndex c l).length = l.length + 1 := by
  induction l with
  | nil => rfl
  | cons d ds ih =>
    simp only [insertByIndex]
    split
    · simp
    · simp [ih]

theorem sortByIndex_length (l : List ChunkInfo) : (sortByIndex l).length = l.length := by
  induction l with
  | nil => rfl
  | cons c cs ih => simp [sortByIndex, insertByIndex_length, ih]

theorem insertByIndex_size_sum (c : ChunkInfo) (l : List ChunkInfo) :
    ((insertByIndex c l).map ChunkInfo.chunk_size).sum =
      c.chunk_size + (l.map ChunkInfo.chunk_size).sum := by
  induction l with
  | nil => simp [insertByIndex]
  | cons d ds ih =>
    simp only [insertByIndex]
    split
    · simp
    · simp [ih]
      omega

theorem sortByIndex_size_sum (l : List ChunkInfo) :
    ((sortByIndex l).map ChunkInfo.chunk_size).sum = (l.map ChunkInfo.chunk_size).sum := by
  induction l with
  | nil => rfl
  | cons c cs ih => simp [sortByIndex, insertByIndex_size_sum, ih]

theorem sortByIndex_eq_self_of_sorted :
    ∀ l : List ChunkInfo,
      l.Pairwise (fun a b => a.chunk_index < b.chunk_index) → sortByIndex l = l := by
  intro l
  induction l with
  | nil => intro _; rfl
  | cons c cs ih =>
    intro hp
    rw [List.pairwise_cons] at hp
    rw [sortByIndex, ih hp.2]
    cases cs with
    | nil => rfl
    | cons d ds =>
      rw [insertByIndex, if_pos (hp.1 d (List.mem_cons_self d ds))]

theorem chunkLoop_fst_zero (content : List Nat) (cs : Nat) (mk : Nat → List Char) (r : Nat)
    (fs : Fs) :
    (chunkLoop content cs mk 0 r fs).1 =
      (List.range r).map (fun k => ⟨mk k, k, min cs (content.length - k * cs)⟩) := by
  rw [chunkLoop_fst]
  apply List.map_congr_left
  intro k _
  simp

theorem mkChunkPath_injective (output_dir base : List Char) :
    Function.Injective (fun i => pathJoin output_dir (base ++ (".chunk.".toList) ++ pad3 i)) := by
  intro a b hab
  simp only [pathJoin] at hab
  have h1 : '/' :: (base ++ (".chunk.".toList) ++ pad3 a) =
      '/' :: (base ++ (".chunk.".toList) ++ pad3 b) := List.append_cancel_left hab
  have h2 : base ++ (".chunk.".toList) ++ pad3 a = base ++ (".chunk.".toList) ++ pad3 b :=
    List.tail_eq_of_cons_eq h1
  exact pad3_injective (List.append_cancel_left h2)

theorem chunk_file_eq (cfg : ChunkingConfig) (file_path output_dir : List Char)
    (content : List Nat) (fs : Fs) (hread : fs.read file_path = some content)
    (hsize : cfg.min_chunk_threshold ≤ content.length) :
    chunk_file cfg file_path output_dir fs =
      (.ok (⟨fileNameOf file_path,
          (content.length + get_chunk_size cfg content.length - 1) /
            get_chunk_size cfg content.length,
          get_chunk_size cfg content.length, content.length, none⟩,
        (List.range ((content.length + get_chunk_size cfg content.length - 1) /
            get_chunk_size cfg content.length)).map
          (fun k => ⟨pathJoin output_dir (fileNameOf file_path ++ (".chunk.".toList) ++ pad3 k),
            k,
            min (get_chunk_size cfg content.length)
              (content.length - k * get_chunk_size cfg content.length)⟩)),
       (chunkLoop content (get_chunk_size cfg content.length)
          (fun i => pathJoin output_dir (fileNameOf file_path ++ (".chunk.".toList) ++ pad3 i)) 0
          ((content.length + get_chunk_size cfg content.length - 1) /
            get_chunk_size cfg content.length)
          (fs.mkDirAll output_dir)).2) := by
  have hdec : decide (cfg.min_chunk_threshold ≤ content.length) = true := decide_eq_true hsize
  unfold chunk_file should_chunk_file
  simp only [hread, hdec]
  rw [if_neg (by simp)]
  rw [chunkLoop_fst_zero]

/-- C1: splitting a file of size at least 100 MiB (the default
`min_chunk_threshold`) with `chunk_file` and reassembling the produced
chunk list with `reassemble_chunks` under the returned descriptor yields
the original content byte for byte. -/
theorem chunk_file_reassemble_roundtrip (file_path output_dir : List Char) (content : List Nat)
    (fs : Fs) (hread : fs.read file_path = some content)
    (hsize : 100 * 1024 * 1024 ≤ content.length) :
    ∃ md chunks fs2,
      chunk_file ChunkingConfig.default file_path output_dir fs = (.ok (md, chunks), fs2) ∧
      reassemble_chunks chunks md fs2 = .ok content := by
  set cs := get_chunk_size ChunkingConfig.default content.length with hcsdef
  have hcs : 0 < cs := by
    rw [hcsdef]
    unfold get_chunk_size
    split
    · decide
    · split
      · decide
      · decide
  set total := (content.length + cs - 1) / cs with htotal
  set mk := fun i =>
    pathJoin output_dir (fileNameOf file_path ++ (".chunk.".toList) ++ pad3 i) with hmk
  have hinj : Function.Injective mk := mkChunkPath_injective output_dir (fileNameOf file_path)
  have heq := chunk_file_eq ChunkingConfig.default file_path output_dir content fs hread hsize
  rw [← hcsdef, ← htotal, ← hmk] at heq
  set fs2 := (chunkLoop content cs mk 0 total (fs.mkDirAll output_dir)).2 with hfs2
  set dat := fun k => (content.drop (k * cs)).take cs with hdat
  have hdatlen : ∀ k, (dat k).length = min cs (content.length - k * cs) := by
    intro k
    rw [hdat]
    simp only [List.length_take, List.length_drop]
    try omega
  set chunks := (List.range total).map
    (fun k => (⟨mk k, k, min cs (content.length - k * cs)⟩ : ChunkInfo)) with hchunks
  refine ⟨⟨fileNameOf file_path, total, cs, content.length, none⟩, chunks, fs2, heq, ?_⟩
  have hchunks2 : chunks = (List.range total).map
      (fun k => (⟨mk (0 + k), 0 + k, (dat (0 + k)).length⟩ : ChunkInfo)) := by
    rw [hchunks]
    apply List.map_congr_left
    intro k _
    simp [hdatlen]
  have hsorted : sortByIndex chunks = chunks := by
    apply sortByIndex_eq_self_of_sorted
    rw [hchunks]
    apply List.Pairwise.map
    · intro a b hab
      exact hab
    · exact List.pairwise_lt_range total
  have hlen : chunks.length = total := by rw [hchunks]; simp
  have hreads : ∀ k, k < total → fs2.read (mk (0 + k)) = some (dat (0 + k)) := by
    intro k hk
    rw [hfs2, hdat]
    exact chunkLoop_read content cs mk hinj total 0 (fs.mkDirAll output_dir) (0 + k)
      (by omega) (by omega)
  have hflat : ((List.range total).map (fun k => dat (0 + k))).flatten = content := by
    have := join_chunk_slices cs hcs total content htotal.symm
    rw [← this]
    congr 1
    apply List.map_congr_left
    intro k _
    simp [hdat]
  have hloop := reasmLoop_ok_of_good fs2 mk dat total 0 [] 0 hreads
  have hsum : ((List.range total).map (fun k => (dat (0 + k)).length)).sum = content.length := by
    have h1 : ((List.range total).map (fun k => dat (0 + k))).flatten.length = content.length :=
      congrArg List.length hflat
    rw [List.length_flatten, List.map_map] at h1
    rw [← h1]
    rfl
  have hsum2 : ((List.range total).map (fun k => (dat k).length)).sum = content.length := by
    rw [← hsum]
    congr 1
    apply List.map_congr_left
    intro k _
    simp
  have hflat2 : ((List.range total).map (fun k => dat k)).flatten = content := by
    rw [← hflat]
    congr 1
    apply List.map_congr_left
    intro k _
    simp
  rw [reassemble_chunks]
  rw [hsorted, if_neg (by rw [hlen]; simp)]
  rw [hchunks2, hloop]
  simp [hsum2, hflat2]

/-- C1 witness: the round trip at a concrete 100 MiB file. -/
theorem chunk_file_reassemble_roundtrip_instance :
    ∃ md chunks fs2,
      chunk_file ChunkingConfig.default ("/tmp/disk.raw".toList) ("/tmp/chunks".toList)
          ⟨[], [("/tmp/disk.raw".toList, List.replicate (100 * 1024 * 1024) 0)]⟩ =
        (.ok (md, chunks), fs2) ∧
      reassemble_chunks chunks md fs2 = .ok (List.replicate (100 * 1024 * 1024) 0) :=
  chunk_file_reassemble_roundtrip _ _ _ _ rfl (by rw [List.length_replicate])

/-- C2: `reassemble_chunks` fails unless the sorted chunk indices are
exactly the dense range `[0, total_chunks)`, the chunk count equals the
descriptor's `total_chunks`, and the total bytes written (the sum of the
chunk sizes) equal the descriptor's `total_size`. -/
theorem reassemble_chunks_requires_dense_indices (chunks : List ChunkInfo)
    (metadata : ChunkMetadata) (fs : Fs)
    (h : ¬((sortByIndex chunks).map ChunkInfo.chunk_index = List.range metadata.total_chunks ∧
        chunks.length = metadata.total_chunks ∧
        (chunks.map ChunkInfo.chunk_size).sum = metadata.total_size)) :
    ∃ e, reassemble_chunks chunks metadata fs = .error e := by
  by_contra hc
  push_neg at hc
  cases hres : reassemble_chunks chunks metadata fs with
  | error e => exact (hc e) hres
  | ok out =>
    apply h
    rw [reassemble_chunks] at hres
    by_cases hl : (sortByIndex chunks).length ≠ metadata.total_chunks
    · rw [if_pos hl] at hres; cases hres
    · rw [if_neg hl] at hres
      push_neg at hl
      cases hloop : reasmLoop fs (sortByIndex chunks) 0 [] 0 with
      | error e =>
        simp only [hloop] at hres
        exact Except.noConfusion hres
      | ok p =>
        obtain ⟨o, tw⟩ := p
        simp only [hloop] at hres
        by_cases htw : tw ≠ metadata.total_size
        · rw [if_pos htw] at hres; cases hres
        · push_neg at htw
          have hidx := reasmLoop_ok_indices fs (sortByIndex chunks) 0 [] 0 (o, tw) hloop
          have htot := reasmLoop_ok_total fs (sortByIndex chunks) 0 [] 0 o tw hloop
          refine ⟨?_, ?_, ?_⟩
          · rw [hidx, hl, List.range_eq_range']
          · rw [← hl, sortByIndex_length]
          · have hs : (chunks.map ChunkInfo.chunk_size).sum =
                ((sortByIndex chunks).map ChunkInfo.chunk_size).sum :=
              (sortByIndex_size_sum chunks).symm
            rw [hs]
            omega

/-- C2 witness: a chunk list with a missing middle index (indices 0 and 2
for a two-chunk descriptor) is rejected. -/
theorem reassemble_chunks_rejects_missing_middle :
    ∃ e, reassemble_chunks [⟨"c0".toList, 0, 1⟩, ⟨"c2".toList, 2, 1⟩]
        ⟨"f".toList, 2, 1, 2, none⟩ ⟨[], [("c0".toList, [7]), ("c2".toList, [8])]⟩ = .error e :=
  reassemble_chunks_requires_dense_indices _ _ _ (by decide)

/-- C9: for a file at or above the default threshold, `chunk_file` selects
the chunk size by tier, produces exactly `ceil(size / chunk_size)` chunks
named `<basename>.chunk.<padded index>` with increasing indices, each of
size `chunk_size` except the last, which carries the residual bytes. -/
theorem chunk_file_tier_and_names (file_path output_dir : List Char) (content : List Nat)
    (fs : Fs) (hread : fs.read file_path = some content)
    (hsize : ChunkingConfig.default.min_chunk_threshold ≤ content.length) :
    ∃ md chunks fs2,
      chunk_file ChunkingConfig.default file_path output_dir fs = (.ok (md, chunks), fs2) ∧
      md.chunk_size = (if 10 * 1024 * 1024 * 1024 ≤ content.length then 500 * 1024 * 1024
        else if 2 * 1024 * 1024 * 1024 ≤ content.length then 250 * 1024 * 1024
        else 100 * 1024 * 1024) ∧
      md.total_chunks = (content.length + md.chunk_size - 1) / md.chunk_size ∧
      md.original_filename = fileNameOf file_path ∧
      md.total_size = content.length ∧
      chunks.length = md.total_chunks ∧
      (∀ i, i < md.total_chunks →
        chunks[i]? = some
          ⟨pathJoin output_dir (fileNameOf file_path ++ (".chunk.".toList) ++ pad3 i), i,
            if i + 1 = md.total_chunks then content.length - i * md.chunk_size
            else md.chunk_size⟩) := by
  set cs := get_chunk_size ChunkingConfig.default content.length with hcsdef
  have hcs : 0 < cs := by
    rw [hcsdef]
    unfold get_chunk_size
    split
    · decide
    · split
      · decide
      · decide
  set total := (content.length + cs - 1) / cs with htotal
  have heq := chunk_file_eq ChunkingConfig.default file_path output_dir content fs hread hsize
  rw [← hcsdef, ← htotal] at heq
  have htier : cs = (if 10 * 1024 * 1024 * 1024 ≤ content.length then 500 * 1024 * 1024
      else if 2 * 1024 * 1024 * 1024 ≤ content.length then 250 * 1024 * 1024
      else 100 * 1024 * 1024) := by
    rw [hcsdef]
    rfl
  have hdm := Nat.div_add_mod (content.length + cs - 1) cs
  have hmod : (content.length + cs - 1) % cs < cs := Nat.mod_lt _ hcs
  rw [← htotal] at hdm
  have hub : content.length ≤ cs * total := by omega
  have hlb : cs * total ≤ content.length + cs - 1 := by omega
  have hmin : ∀ i, i < total →
      min cs (content.length - i * cs) =
        if i + 1 = total then content.length - i * cs else cs := by
    intro i hi
    have hsm : (i + 1) * cs = i * cs + cs := Nat.succ_mul i cs
    by_cases hlast : i + 1 = total
    · rw [if_pos hlast]
      apply Nat.min_eq_right
      have h1 : cs * total = cs * (i + 1) := by rw [hlast]
      have h2 : cs * (i + 1) = (i + 1) * cs := Nat.mul_comm cs (i + 1)
      omega
    · rw [if_neg hlast]
      apply Nat.min_eq_left
      have h3 : (i + 1) * cs ≤ (total - 1) * cs :=
        Nat.mul_le_mul_right cs (by omega)
      have h4 : (total - 1) * cs = total * cs - cs := by
        rw [Nat.sub_mul, Nat.one_mul]
      have h5 : total * cs = cs * total := Nat.mul_comm total cs
      omega
  refine ⟨⟨fileNameOf file_path, total, cs, content.length, none⟩, _, _, heq, htier, rfl, rfl,
    rfl, by simp, ?_⟩
  intro i hi
  rw [List.getElem?_map, List.getElem?_range hi]
  simp [hmin i hi]

/-- C9 witness: a 300 MiB file under the default configuration yields 3
chunks of 100 MiB each. -/
theorem chunk_file_300mib_instance :
    ∃ md chunks fs2,
      chunk_file ChunkingConfig.default ("/tmp/disk.raw".toList) ("/tmp/out".toList)
          ⟨[], [("/tmp/disk.raw".toList, List.replicate (300 * 1024 * 1024) 0)]⟩ =
        (.ok (md, chunks), fs2) ∧
      md.chunk_size = 100 * 1024 * 1024 ∧ md.total_chunks = 3 ∧ chunks.length = 3 ∧
      (∀ i, i < 3 → ∃ c, chunks[i]? = some c ∧ c.chunk_size = 100 * 1024 * 1024) := by
  obtain ⟨md, chunks, fs2, h1, h2, h3, h4, h5, h6, h7⟩ :=
    chunk_file_tier_and_names ("/tmp/disk.raw".toList) ("/tmp/out".toList)
      (List.replicate (300 * 1024 * 1024) 0)
      ⟨[], [("/tmp/disk.raw".toList, List.replicate (300 * 1024 * 1024) 0)]⟩
      rfl (by rw [List.length_replicate]; decide)
  simp only [List.length_replicate] at h2 h3 h7
  have hcs : md.chunk_size = 100 * 1024 * 1024 := by
    rw [h2]
    norm_num
  have htc : md.total_chunks = 3 := by
    rw [h3, hcs]
  refine ⟨md, chunks, fs2, h1, hcs, htc, by rw [h6, htc], ?_⟩
  intro i hi
  refine ⟨_, h7 i (by omega), ?_⟩
  simp only [htc, hcs]
  interval_cases i <;> norm_num

/-- C10: a file strictly below the configured `min_chunk_threshold` makes
`chunk_file` fail before creating the output directory or writing any
chunk, leaving the filesystem unchanged. -/
theorem chunk_file_below_threshold_unchanged (cfg : ChunkingConfig)
    (file_path output_dir : List Char) (content : List Nat) (fs : Fs)
    (hread : fs.read file_path = some content)
    (hsize : content.length < cfg.min_chunk_threshold) :
    chunk_file cfg file_path output_dir fs =
      (.error (.Other ("File is below chunking threshold".toList)), fs) := by
  have hdec : decide (cfg.min_chunk_threshold ≤ content.length) = false :=
    decide_eq_false (by omega)
  unfold chunk_file should_chunk_file
  simp only [hread, hdec]
  simp only [if_true]

/-- C10 witness: a 3-byte file is rejected and the filesystem value is
returned untouched. -/
theorem chunk_file_below_threshold_unchanged_instance :
    chunk_file ChunkingConfig.default ("/tmp/f".toList) ("/tmp/out".toList)
        ⟨[], [("/tmp/f".toList, [1, 2, 3])]⟩ =
      (.error (.Other ("File is below chunking threshold".toList)),
        ⟨[], [("/tmp/f".toList, [1, 2, 3])]⟩) :=
  chunk_file_below_threshold_unchanged _ _ _ _ _ rfl (by decide)

/-! ## Helper lemmas: network allocator -/

theorem generate_random_octet_range (r : Nat) :
    16 ≤ generate_random_octet r ∧ generate_random_octet r < 216 := by
  unfold generate_random_octet
  omega

theorem subnetLoop_ok (used : List Nat) (draws : Nat → Nat) :
    ∀ fuel i s, subnetLoop used draws i fuel = .ok s →
      ∃ o, 16 ≤ o ∧ o < 216 ∧ o ∉ used ∧ s = subnetStr o := by
  intro fuel
  induction fuel with
  | zero => intro i s h; cases h
  | succ fuel ih =>
    intro i s h
    rw [subnetLoop] at h
    by_cases hmem : generate_random_octet (draws i) ∈ used
    · rw [if_pos hmem] at h
      exact ih (i + 1) s h
    · rw [if_neg hmem] at h
      cases h
      exact ⟨generate_random_octet (draws i), (generate_random_octet_range (draws i)).1,
        (generate_random_octet_range (draws i)).2, hmem, rfl⟩

theorem subnetLoop_exhausted (used : List Nat) (draws : Nat → Nat)
    (hcov : ∀ o ∈ List.range' 16 200, o ∈ used) :
    ∀ fuel i, subnetLoop used draws i fuel =
      .error (.Other ("Could not generate a unique subnet after multiple attempts".toList)) := by
  intro fuel
  induction fuel with
  | zero => intro i; rfl
  | succ fuel ih =>
    intro i
    rw [subnetLoop]
    have hoct := generate_random_octet_range (draws i)
    have hmem : generate_random_octet (draws i) ∈ used := by
      apply hcov
      rw [List.mem_range'_1]
      omega
    rw [if_pos hmem]
    exact ih (i + 1)

theorem tapLoop_ok (used : List (List Char)) (h : Nat) :
    ∀ fuel i s, tapLoop used h i fuel = .ok s → s ∉ used ∧ ∃ j, s = tapFallback h j := by
  intro fuel
  induction fuel with
  | zero => intro i s hk; cases hk
  | succ fuel ih =>
    intro i s hk
    rw [tapLoop] at hk
    by_cases hmem : tapFallback h i ∈ used
    · rw [if_pos hmem] at hk
      exact ih (i + 1) s hk
    · rw [if_neg hmem] at hk
      cases hk
      exact ⟨hmem, i, rfl⟩

theorem generate_unique_tap_name_shape (ipOutput : Option (List (List Char))) (h : Nat)
    (s : List Char) (hok : generate_unique_tap_name ipOutput h = .ok s) :
    s ∉ usedTapNamesOf ipOutput ∧ (s = tapCandidate h ∨ ∃ j, s = tapFallback h j) := by
  rw [generate_unique_tap_name] at hok
  by_cases hmem : tapCandidate h ∈ usedTapNamesOf ipOutput
  · rw [if_pos hmem] at hok
    obtain ⟨h1, h2⟩ := tapLoop_ok (usedTapNamesOf ipOutput) h 1000 1 s hok
    exact ⟨h1, Or.inr h2⟩
  · rw [if_neg hmem] at hok
    cases hok
    exact ⟨hmem, Or.inl rfl⟩

theorem toHexPad_length : ∀ w v, (toHexPad w v).length = w := by
  intro w
  induction w with
  | zero => intro v; rfl
  | succ w ih => intro v; simp [toHexPad, ih]

theorem hexDigitChar_is_hex (n : Nat) :
    (decide (('0' ≤ hexDigitChar n ∧ hexDigitChar n ≤ '9') ∨
      ('a' ≤ hexDigitChar n ∧ hexDigitChar n ≤ 'f'))) = true := by
  unfold hexDigitChar
  split <;> decide

theorem hexDigitChar_ascii (n : Nat) : (hexDigitChar n).toNat < 128 := by
  unfold hexDigitChar
  split <;> decide

theorem toHexPad_all_hex : ∀ w v c, c ∈ toHexPad w v →
    (decide (('0' ≤ c ∧ c ≤ '9') ∨ ('a' ≤ c ∧ c ≤ 'f'))) = true := by
  intro w
  induction w with
  | zero => intro v c hc; cases hc
  | succ w ih =>
    intro v c hc
    rw [toHexPad, List.mem_append] at hc
    rcases hc with hc | hc
    · exact ih (v / 16) c hc
    · rw [List.mem_singleton] at hc
      subst hc
      exact hexDigitChar_is_hex (v % 16)

theorem toHexPad_all_ascii : ∀ w v c, c ∈ toHexPad w v → c.toNat < 128 := by
  intro w
  induction w with
  | zero => intro v c hc; cases hc
  | succ w ih =>
    intro v c hc
    rw [toHexPad, List.mem_append] at hc
    rcases hc with hc | hc
    · exact ih (v / 16) c hc
    · rw [List.mem_singleton] at hc
      subst hc
      exact hexDigitChar_ascii (v % 16)

theorem tapNameRegex_of_hex_digits (ds : List Char)
    (hall : ∀ c ∈ ds, (decide (('0' ≤ c ∧ c ≤ '9') ∨ ('a' ≤ c ∧ c ≤ 'f'))) = true)
    (hlen7 : 7 ≤ ds.length) (hlen9 : ds.length ≤ 9) :
    tapNameRegex (('t' :: 'a' :: 'p' :: '-' :: ds : List Char)) = true := by
  rw [tapNameRegex]
  rw [Bool.and_eq_true, Bool.and_eq_true]
  refine ⟨⟨?_, ?_⟩, ?_⟩
  · rw [List.all_eq_true]
    exact hall
  · exact decide_eq_true hlen7
  · exact decide_eq_true hlen9

/-! ## C3: subnet allocation -/

/-- C3 counterexample: the octet draw `16 + u8 % 200` is not uniform on
`[16, 216)`: among the 256 equally likely `u8` values, two map to octet 16
but only one maps to octet 215. -/
theorem generate_random_octet_modulo_bias :
    ((List.range 256).filter (fun r => generate_random_octet r = 16)).length = 2 ∧
    ((List.range 256).filter (fun r => generate_random_octet r = 215)).length = 1 := by
  decide

/-- C3 (amended): every draw of `generate_random_octet` lies in
`[16, 216)`; a subnet returned by `generate_unique_subnet` always carries
an octet from that range that is not recorded in any `subnet` file; and
when the recorded octets cover the whole draw range the allocator fails
with the exhaustion error after its 200-draw budget. -/
theorem generate_unique_subnet_spec :
    (∀ r, 16 ≤ generate_random_octet r ∧ generate_random_octet r < 216) ∧
    (∀ entries draws s, generate_unique_subnet entries draws = .ok s →
      ∃ o, 16 ≤ o ∧ o < 216 ∧ o ∉ used_subnets entries ∧ s = subnetStr o) ∧
    (∀ entries draws, (∀ o ∈ List.range' 16 200, o ∈ used_subnets entries) →
      generate_unique_subnet entries draws =
        .error (.Other ("Could not generate a unique subnet after multiple attempts".toList))) := by
  refine ⟨generate_random_octet_range, ?_, ?_⟩
  · intro entries draws s h
    exact subnetLoop_ok (used_subnets entries) draws 200 0 s h
  · intro entries draws hcov
    exact subnetLoop_exhausted (used_subnets entries) draws hcov 200 0

/-- C3 witness: with 200 VM directories recording octets 16..215, the
allocator deterministically reports exhaustion. -/
theorem generate_unique_subnet_exhaustion_instance :
    generate_unique_subnet
        ((List.range 200).map (fun k => ⟨true, some (subnetStr (16 + k)), none⟩))
        (fun _ => 0) =
      .error (.Other ("Could not generate a unique subnet after multiple attempts".toList)) := by
  have hused : used_subnets
      ((List.range 200).map (fun k => ⟨true, some (subnetStr (16 + k)), none⟩)) =
      List.range' 16 200 := by decide
  exact generate_unique_subnet_spec.2.2 _ _ (fun o ho => by rw [hused]; exact ho)

/-! ## C4: TAP name allocation sources -/

/-- C4 counterexample: `generate_unique_tap_name` never scans `tapdev`
files.  With an empty kernel interface table and a VM directory whose
`tapdev` file records exactly the candidate name, the candidate is
returned anyway. -/
theorem generate_unique_tap_name_ignores_tapdev :
    generate_unique_tap_name (some []) 0 = .ok ("tap-00000000".toList) ∧
    ("tap-00000000".toList) ∈ vmTapdevNames [⟨true, none, some ("tap-00000000".toList)⟩] := by
  constructor
  · rfl
  · decide

/-- C4 (amended): the in-use TAP names are enumerated solely from the
`tap-` tokens of `ip link show` output; a returned name never collides
with that set, but names recorded only in `tapdev` files are not
consulted. -/
theorem generate_unique_tap_name_kernel_only (ipOutput : Option (List (List Char))) (h : Nat)
    (s : List Char) (hok : generate_unique_tap_name ipOutput h = .ok s) :
    s ∉ usedTapNamesOf ipOutput :=
  (generate_unique_tap_name_shape ipOutput h s hok).1

/-- C4 witness: the amended theorem at a concrete digest and empty kernel
table. -/
theorem generate_unique_tap_name_kernel_only_instance :
    ("tap-00000005".toList) ∉ usedTapNamesOf (some []) :=
  generate_unique_tap_name_kernel_only (some []) 5 _ rfl

/-! ## C6: TAP name shape -/

/-- C6: every TAP name returned by `generate_unique_tap_name` — primary
candidate or collision fallback — is at most 15 bytes (all its characters
are ASCII, so bytes equal characters) and matches
`^tap-[0-9a-f]{7,8}[0-9a-f]?$`. -/
theorem tap_name_length_and_regex (ipOutput : Option (List (List Char))) (h : Nat)
    (s : List Char) (hok : generate_unique_tap_name ipOutput h = .ok s) :
    s.length ≤ 15 ∧ tapNameRegex s = true ∧ ∀ c ∈ s, c.toNat < 128 := by
  obtain ⟨-, hshape⟩ := generate_unique_tap_name_shape ipOutput h s hok
  have htap : ("tap-".toList : List Char) = ['t', 'a', 'p', '-'] := rfl
  rcases hshape with hc | ⟨j, hf⟩
  · subst hc
    rw [tapCandidate, htap]
    refine ⟨by simp [toHexPad_length], ?_, ?_⟩
    · simp only [List.cons_append, List.nil_append]
      apply tapNameRegex_of_hex_digits
      · exact toHexPad_all_hex 8 (h % 4294967295)
      · rw [toHexPad_length]; omega
      · rw [toHexPad_length]; omega
    · intro c hc
      rcases List.mem_append.mp hc with hc | hc
      · fin_cases hc <;> decide
      · exact toHexPad_all_ascii 8 _ c hc
  · subst hf
    rw [tapFallback, htap]
    refine ⟨by simp [toHexPad_length], ?_, ?_⟩
    · simp only [List.cons_append, List.nil_append, List.append_assoc]
      apply tapNameRegex_of_hex_digits
      · intro c hc
        rcases List.mem_append.mp hc with hc | hc
        · exact toHexPad_all_hex 7 _ c hc
        · rw [List.mem_singleton] at hc
          subst hc
          exact hexDigitChar_is_hex (j % 16)
      · simp [toHexPad_length]
      · simp [toHexPad_length]
    · intro c hc
      rcases List.mem_append.mp hc with hc | hc
      · rcases List.mem_append.mp hc with hc | hc
        · fin_cases hc <;> decide
        · exact toHexPad_all_ascii 7 _ c hc
      · rw [List.mem_singleton] at hc
        subst hc
        exact hexDigitChar_ascii (j % 16)

/-- C6 witness: the shape theorem at a concrete digest. -/
theorem tap_name_length_and_regex_instance :
    ("tap-00000005".toList).length ≤ 15 ∧ tapNameRegex ("tap-00000005".toList) = true ∧
      ∀ c ∈ ("tap-00000005".toList), c.toNat < 128 :=
  tap_name_length_and_regex (some []) 5 _ rfl

/-! ## C5: image reference parsing -/

/-- C5: `ImageRef::parse` accepts `name[:tag]`, `org/name[:tag]` and
`registry/org/name[:tag]`; with two tokens the first is a registry (with
the default org) iff it contains a dot or equals the known registry host
`ghcr.io`, else an org (with the default registry); four or more tokens
fail with `InvalidImageName`; a missing tag defaults to `latest`; and the
claim's concrete examples evaluate as stated. -/
theorem imageref_parse_spec :
    (∀ img reg org p0, splitOnChar '/' img = [p0] →
      ImageRef.parse img reg org = .ok ⟨reg, org, (splitNameTag p0).1, (splitNameTag p0).2⟩) ∧
    (∀ img reg org p0 p1, splitOnChar '/' img = [p0, p1] →
      ('.' ∈ p0 ∨ p0 = "ghcr.io".toList) →
      ImageRef.parse img reg org = .ok ⟨p0, org, (splitNameTag p1).1, (splitNameTag p1).2⟩) ∧
    (∀ img reg org p0 p1, splitOnChar '/' img = [p0, p1] →
      ¬('.' ∈ p0 ∨ p0 = "ghcr.io".toList) →
      ImageRef.parse img reg org = .ok ⟨reg, p0, (splitNameTag p1).1, (splitNameTag p1).2⟩) ∧
    (∀ img reg org p0 p1 p2, splitOnChar '/' img = [p0, p1, p2] →
      ImageRef.parse img reg org = .ok ⟨p0, p1, (splitNameTag p2).1, (splitNameTag p2).2⟩) ∧
    (∀ img reg org, 4 ≤ (splitOnChar '/' img).length →
      ImageRef.parse img reg org = .error (.InvalidImageName img)) ∧
    (∀ nt, ¬ ':' ∈ nt → splitNameTag nt = (nt, "latest".toList)) ∧
    (∀ reg org, ImageRef.parse ("a/b/c/d".toList) reg org =
      .error (.InvalidImageName ("a/b/c/d".toList))) ∧
    ImageRef.parse ("ubuntu".toList) ("ghcr.io".toList) ("cirunlabs".toList) =
      .ok ⟨"ghcr.io".toList, "cirunlabs".toList, "ubuntu".toList, "latest".toList⟩ ∧
    (∀ reg org, ImageRef.parse ("registry.example.com/ubuntu".toList) reg org =
      .ok ⟨"registry.example.com".toList, org, "ubuntu".toList, "latest".toList⟩) := by
  refine ⟨?_, ?_, ?_, ?_, ?_, ?_, ?_, ?_, ?_⟩
  · intro img reg org p0 hp
    unfold ImageRef.parse
    rw [hp]
  · intro img reg org p0 p1 hp hcond
    unfold ImageRef.parse
    rw [hp]
    simp only
    rw [if_pos hcond]
  · intro img reg org p0 p1 hp hcond
    unfold ImageRef.parse
    rw [hp]
    simp only
    rw [if_neg hcond]
  · intro img reg org p0 p1 p2 hp
    unfold ImageRef.parse
    rw [hp]
  · intro img reg org hlen
    rcases hp : splitOnChar '/' img with _ | ⟨a, _ | ⟨b, _ | ⟨c, _ | ⟨d, rest⟩⟩⟩⟩
    · rw [hp] at hlen; simp at hlen
    · rw [hp] at hlen; simp at hlen
    · rw [hp] at hlen; simp at hlen
    · rw [hp] at hlen; simp at hlen
    · unfold ImageRef.parse
      rw [hp]
  · intro nt
    induction nt with
    | nil => intro _; rfl
    | cons c rest ih =>
      intro hnot
      simp only [List.mem_cons, not_or] at hnot
      rw [splitNameTag, if_neg (Ne.symm hnot.1)]
      simp only
      rw [ih hnot.2]
  · intro reg org
    rfl
  · rfl
  · intro reg org
    rfl

/-- C5 witness: the four-token rejection at the claim's concrete input. -/
theorem imageref_parse_examples :
    4 ≤ (splitOnChar '/' ("a/b/c/d".toList)).length ∧
    ImageRef.parse ("a/b/c/d".toList) ("ghcr.io".toList) ("cirunlabs".toList) =
      .error (.InvalidImageName ("a/b/c/d".toList)) :=
  ⟨by decide, imageref_parse_spec.2.2.2.2.1 _ _ _ (by decide)⟩

/-! ## C7: fresh instance identity on `run` -/

theorem lookupT_writeF_ne (k kp v : List Char) (m : FileMap) (h : kp ≠ k) :
    lookupT k (writeF kp v m) = lookupT k m := by
  simp [writeF, lookupT, h]

theorem lookupT_writeF_eq (k v : List Char) (m : FileMap) :
    lookupT k (writeF k v m) = some v := by
  simp [writeF, lookupT]

theorem copy_user_data_lookup_other (imageFiles : FileMap) (k : List Char) :
    ∀ (l : List (List Char × List Char)) (acc : FileMap),
      (∀ f, (("user-data".toList), f) ∈ l → f ≠ k) →
      lookupT k (l.foldl (copyUserDataStep imageFiles) acc) = lookupT k acc := by
  intro l
  induction l with
  | nil => intro acc _; rfl
  | cons a rest ih =>
    intro acc hyp
    rw [List.foldl_cons, ih _ (fun f hf => hyp f (List.mem_cons_of_mem a hf))]
    unfold copyUserDataStep
    by_cases ha : a.1 = "user-data".toList
    · rw [if_pos ha]
      cases him : lookupT a.2 imageFiles with
      | none => rfl
      | some content =>
        have hmem : (("user-data".toList), a.2) ∈ a :: rest := by
          rw [← ha, Prod.mk.eta]
          exact List.mem_cons_self a rest
        exact lookupT_writeF_ne k a.2 content acc (hyp a.2 hmem)
    · rw [if_neg ha]

theorem copy_user_data_preserves_ud (imageFiles : FileMap) (c : List Char)
    (himg : lookupT ("user-data".toList) imageFiles = some c) :
    ∀ (l : List (List Char × List Char)) (acc : FileMap),
      lookupT ("user-data".toList) acc = some c →
      lookupT ("user-data".toList) (l.foldl (copyUserDataStep imageFiles) acc) = some c := by
  intro l
  induction l with
  | nil => intro acc h; exact h
  | cons a rest ih =>
    intro acc hacc
    rw [List.foldl_cons]
    apply ih
    unfold copyUserDataStep
    by_cases ha : a.1 = "user-data".toList
    · rw [if_pos ha]
      cases him : lookupT a.2 imageFiles with
      | none => exact hacc
      | some content =>
        by_cases hf : a.2 = "user-data".toList
        · rw [hf] at him
          rw [himg] at him
          injection him with hcc
          rw [hf]
          rw [lookupT_writeF_eq, hcc]
        · rw [lookupT_writeF_ne _ _ _ _ hf]
          exact hacc
    · rw [if_neg ha]
      exact hacc

theorem copy_user_data_ud (imageFiles : FileMap) (c : List Char)
    (himg : lookupT ("user-data".toList) imageFiles = some c) :
    ∀ (l : List (List Char × List Char)) (acc : FileMap),
      (("user-data".toList), ("user-data".toList)) ∈ l →
      lookupT ("user-data".toList) (l.foldl (copyUserDataStep imageFiles) acc) = some c := by
  intro l
  induction l with
  | nil => intro acc h; cases h
  | cons a rest ih =>
    intro acc hmem
    rw [List.foldl_cons]
    rcases List.mem_cons.mp hmem with heq | hmem2
    · apply copy_user_data_preserves_ud imageFiles c himg
      have hstep : copyUserDataStep imageFiles acc (("user-data".toList), ("user-data".toList)) =
          writeF ("user-data".toList) c acc := by
        have hred : copyUserDataStep imageFiles acc (("user-data".toList), ("user-data".toList)) =
            (match lookupT ("user-data".toList) imageFiles with
              | some content => writeF ("user-data".toList) content acc
              | none => acc) := rfl
        rw [hred, himg]
      rw [← heq, hstep, lookupT_writeF_eq]
    · exact ih _ hmem2

/-- C7 counterexample: `run_from_image` does not always regenerate
`meta-data`.  A manifest recording its `user-data` artifact under the
filename `meta-data` makes the copy loop (image.rs lines 1760-1768) place
the image's file at `vm_dir/meta-data`, so the `!exists` check at line
1790 skips regeneration and the VM inherits the image's file. -/
theorem run_from_image_inherits_crafted_meta_data :
    lookupT ("meta-data".toList)
        (run_from_image_cloudinit [(("user-data".toList), ("meta-data".toList))]
          [(("meta-data".toList), ("stale-instance-data".toList))] none ("vm1".toList)
          ("192.168.42".toList) ("tap-0a1b2c3d".toList) ("1024M".toList) ("2".toList)
          ("10G".toList) ("52:54:aa:bb:cc:dd".toList) ("default-ud".toList)).1 =
      some ("stale-instance-data".toList) ∧
    some ("stale-instance-data".toList) ≠ some (metaDataFor ("vm1".toList)) := by
  constructor
  · rfl
  · decide

/-- C7 (amended): for every manifest, `run_from_image` writes the
cloud-init `network-config` freshly from the new MAC and subnet — never
from the image; it writes `meta-data` freshly from the new VM name unless
the manifest records its `user-data` artifact under the filename
`meta-data` (the pathological case of the counterexample); and when the
manifest records a `user-data` artifact under its canonical `user-data`
filename, the image's file is copied into the VM directory and the
cloud-init directory provided no override path is given. -/
theorem run_from_image_regenerates_identity (artifacts : List (List Char × List Char))
    (imageFiles : FileMap) (udp : Option (List Char))
    (vm_name subnet tap_name memory cpus disk_size mac dud : List Char) :
    lookupT ("network-config".toList)
        (run_from_image_cloudinit artifacts imageFiles udp vm_name subnet tap_name memory cpus
          disk_size mac dud).2 = some (networkConfigFor mac subnet) ∧
    ((∀ f, (("user-data".toList), f) ∈ artifacts → f ≠ ("meta-data".toList)) →
      lookupT ("meta-data".toList)
          (run_from_image_cloudinit artifacts imageFiles udp vm_name subnet tap_name memory cpus
            disk_size mac dud).1 = some (metaDataFor vm_name) ∧
      lookupT ("meta-data".toList)
          (run_from_image_cloudinit artifacts imageFiles udp vm_name subnet tap_name memory cpus
            disk_size mac dud).2 = some (metaDataFor vm_name)) ∧
    (∀ c, udp = none → (("user-data".toList), ("user-data".toList)) ∈ artifacts →
      lookupT ("user-data".toList) imageFiles = some c →
      lookupT ("user-data".toList)
          (run_from_image_cloudinit artifacts imageFiles udp vm_name subnet tap_name memory cpus
            disk_size mac dud).1 = some c ∧
      lookupT ("user-data".toList)
          (run_from_image_cloudinit artifacts imageFiles udp vm_name subnet tap_name memory cpus
            disk_size mac dud).2 = some c) := by
  obtain ⟨vm1, vm2, vm3, vm4, vm5, ci1, ci2, e1, e2, e3, e4, e5, ec1, ec2, hR⟩ :
      ∃ vm1 vm2 vm3 vm4 vm5 ci1 ci2 : FileMap,
        vm1 = artifacts.foldl (copyUserDataStep imageFiles) [] ∧
        vm2 = writeF ("disk_size".toList) disk_size (writeF ("cpus".toList) cpus
          (writeF ("memory".toList) memory (writeF ("tapdev".toList) tap_name
            (writeF ("subnet".toList) subnet vm1)))) ∧
        vm3 = (match lookupT ("meta-data".toList) vm2 with
          | none => writeF ("meta-data".toList) (metaDataFor vm_name) vm2
          | some _ => vm2) ∧
        vm4 = (match udp with
          | some content => writeF ("user-data".toList) content vm3
          | none =>
            match lookupT ("user-data".toList) vm3 with
            | none => writeF ("user-data".toList) dud vm3
            | some _ => vm3) ∧
        vm5 = writeF ("mac".toList) mac vm4 ∧
        ci1 = [("meta-data".toList), ("user-data".toList)].foldl (fun acc f =>
          match lookupT f vm5 with
          | some c => writeF f c acc
          | none => acc) [] ∧
        ci2 = (match lookupT ("network-config".toList) ci1 with
          | none => writeF ("network-config".toList) (networkConfigFor mac subnet) ci1
          | some _ => ci1) ∧
        run_from_image_cloudinit artifacts imageFiles udp vm_name subnet tap_name memory cpus
          disk_size mac dud = (vm5, ci2) :=
    ⟨_, _, _, _, _, _, _, rfl, rfl, rfl, rfl, rfl, rfl, rfl, rfl⟩
  rw [hR]
  have m2 : lookupT ("meta-data".toList) vm2 = lookupT ("meta-data".toList) vm1 := by
    rw [e2, lookupT_writeF_ne _ _ _ _ (by decide), lookupT_writeF_ne _ _ _ _ (by decide),
      lookupT_writeF_ne _ _ _ _ (by decide), lookupT_writeF_ne _ _ _ _ (by decide),
      lookupT_writeF_ne _ _ _ _ (by decide)]
  have u2 : lookupT ("user-data".toList) vm2 = lookupT ("user-data".toList) vm1 := by
    rw [e2, lookupT_writeF_ne _ _ _ _ (by decide), lookupT_writeF_ne _ _ _ _ (by decide),
      lookupT_writeF_ne _ _ _ _ (by decide), lookupT_writeF_ne _ _ _ _ (by decide),
      lookupT_writeF_ne _ _ _ _ (by decide)]
  have c1nc : lookupT ("network-config".toList) ci1 = none := by
    rw [ec1]
    simp only [List.foldl_cons, List.foldl_nil]
    cases hm5 : lookupT ("meta-data".toList) vm5 <;>
      cases hu5 : lookupT ("user-data".toList) vm5 <;>
        simp [hm5, hu5, writeF, lookupT]
  have c1md : lookupT ("meta-data".toList) ci1 = lookupT ("meta-data".toList) vm5 := by
    rw [ec1]
    simp only [List.foldl_cons, List.foldl_nil]
    cases hm5 : lookupT ("meta-data".toList) vm5 <;>
      cases hu5 : lookupT ("user-data".toList) vm5 <;>
        simp [hm5, hu5, writeF, lookupT]
  have c1ud : lookupT ("user-data".toList) ci1 = lookupT ("user-data".toList) vm5 := by
    rw [ec1]
    simp only [List.foldl_cons, List.foldl_nil]
    cases hm5 : lookupT ("meta-data".toList) vm5 <;>
      cases hu5 : lookupT ("user-data".toList) vm5 <;>
        simp [hm5, hu5, writeF, lookupT]
  have c2md : lookupT ("meta-data".toList) ci2 = lookupT ("meta-data".toList) ci1 := by
    rw [ec2, c1nc]
    exact lookupT_writeF_ne _ _ _ _ (by decide)
  have c2ud : lookupT ("user-data".toList) ci2 = lookupT ("user-data".toList) ci1 := by
    rw [ec2, c1nc]
    exact lookupT_writeF_ne _ _ _ _ (by decide)
  refine ⟨?_, ?_, ?_⟩
  · rw [ec2, c1nc]
    exact lookupT_writeF_eq _ _ _
  · intro hyp
    have m1 : lookupT ("meta-data".toList) vm1 = none := by
      rw [e1, copy_user_data_lookup_other imageFiles _ artifacts [] hyp]
      rfl
    have m2n : lookupT ("meta-data".toList) vm2 = none := m2.trans m1
    have m3 : lookupT ("meta-data".toList) vm3 = some (metaDataFor vm_name) := by
      rw [e3]
      simp only [m2n]
      exact lookupT_writeF_eq _ _ _
    have m4 : lookupT ("meta-data".toList) vm4 = some (metaDataFor vm_name) := by
      cases hu : udp with
      | some o =>
        rw [hu] at e4
        simp only at e4
        rw [e4, lookupT_writeF_ne _ _ _ _ (by decide)]
        exact m3
      | none =>
        rw [hu] at e4
        simp only at e4
        cases hud3 : lookupT ("user-data".toList) vm3 with
        | none =>
          rw [hud3] at e4
          simp only at e4
          rw [e4, lookupT_writeF_ne _ _ _ _ (by decide)]
          exact m3
        | some x =>
          rw [hud3] at e4
          simp only at e4
          rw [e4]
          exact m3
    have m5 : lookupT ("meta-data".toList) vm5 = some (metaDataFor vm_name) := by
      rw [e5, lookupT_writeF_ne _ _ _ _ (by decide)]
      exact m4
    exact ⟨m5, c2md.trans (c1md.trans m5)⟩
  · intro c hudp hmem himg
    have u1 : lookupT ("user-data".toList) vm1 = some c := by
      rw [e1]
      exact copy_user_data_ud imageFiles c himg artifacts [] hmem
    have u2c : lookupT ("user-data".toList) vm2 = some c := u2.trans u1
    have u3 : lookupT ("user-data".toList) vm3 = some c := by
      rw [e3]
      cases hm2 : lookupT ("meta-data".toList) vm2 with
      | none =>
        simp only
        rw [lookupT_writeF_ne _ _ _ _ (by decide)]
        exact u2c
      | some x =>
        simp only
        exact u2c
    have u4 : lookupT ("user-data".toList) vm4 = some c := by
      rw [hudp] at e4
      simp only at e4
      rw [u3] at e4
      simp only at e4
      rw [e4]
      exact u3
    have u5 : lookupT ("user-data".toList) vm5 = some c := by
      rw [e5, lookupT_writeF_ne _ _ _ _ (by decide)]
      exact u4
    exact ⟨u5, c2ud.trans (c1ud.trans u5)⟩

/-- C7 witness: a base image with no `user-data` artifact gets fresh
`network-config` and `meta-data`; a snapshot manifest with the canonical
`user-data` artifact and no override gets the image's file copied. -/
theorem run_from_image_regenerates_identity_instance :
    lookupT ("network-config".toList)
        (run_from_image_cloudinit
          [(("base_image".toList), ("base.raw".toList)),
            (("firmware".toList), ("hypervisor-fw".toList))]
          [] none ("vm1".toList) ("192.168.42".toList) ("tap-0a1b2c3d".toList) ("1024M".toList)
          ("2".toList) ("10G".toList) ("52:54:aa:bb:cc:dd".toList) ("default-ud".toList)).2 =
      some (networkConfigFor ("52:54:aa:bb:cc:dd".toList) ("192.168.42".toList)) ∧
    lookupT ("meta-data".toList)
        (run_from_image_cloudinit
          [(("base_image".toList), ("base.raw".toList)),
            (("firmware".toList), ("hypervisor-fw".toList))]
          [] none ("vm1".toList) ("192.168.42".toList) ("tap-0a1b2c3d".toList) ("1024M".toList)
          ("2".toList) ("10G".toList) ("52:54:aa:bb:cc:dd".toList) ("default-ud".toList)).1 =
      some (metaDataFor ("vm1".toList)) ∧
    lookupT ("user-data".toList)
        (run_from_image_cloudinit
          [(("base_image".toList), ("base.raw".toList)),
            (("user-data".toList), ("user-data".toList))]
          [(("user-data".toList), ("#cloud-config hello".toList))] none
          ("vm1".toList) ("192.168.42".toList) ("tap-0a1b2c3d".toList) ("1024M".toList)
          ("2".toList) ("10G".toList) ("52:54:aa:bb:cc:dd".toList) ("default-ud".toList)).1 =
      some ("#cloud-config hello".toList) := by
  refine ⟨(run_from_image_regenerates_identity
      [(("base_image".toList), ("base.raw".toList)),
        (("firmware".toList), ("hypervisor-fw".toList))]
      [] none ("vm1".toList) ("192.168.42".toList) ("tap-0a1b2c3d".toList) ("1024M".toList)
      ("2".toList) ("10G".toList) ("52:54:aa:bb:cc:dd".toList) ("default-ud".toList)).1,
    ((run_from_image_regenerates_identity
      [(("base_image".toList), ("base.raw".toList)),
        (("firmware".toList), ("hypervisor-fw".toList))]
      [] none ("vm1".toList) ("192.168.42".toList) ("tap-0a1b2c3d".toList) ("1024M".toList)
      ("2".toList) ("10G".toList) ("52:54:aa:bb:cc:dd".toList)
      ("default-ud".toList)).2.1 (by intro f hf; simp at hf)).1,
    ((run_from_image_regenerates_identity
      [(("base_image".toList), ("base.raw".toList)),
        (("user-data".toList), ("user-data".toList))]
      [(("user-data".toList), ("#cloud-config hello".toList))] none
      ("vm1".toList) ("192.168.42".toList) ("tap-0a1b2c3d".toList) ("1024M".toList)
      ("2".toList) ("10G".toList) ("52:54:aa:bb:cc:dd".toList)
      ("default-ud".toList)).2.2 ("#cloud-config hello".toList) rfl (by decide) (by decide)).1⟩

/-! ## C8: stop on a non-running VM -/

/-- C8 counterexample: in JSON mode, `stop` on an existing VM with no live
hypervisor process returns `Ok` (printing a `success: false` envelope)
rather than failing with an error. -/
theorem stop_json_mode_returns_ok :
    stop ("a".toList) true none (fun _ => false) (fun _ => false) true =
      .ok ([], [⟨false, "VM ".toList ++ ("a".toList) ++ " is not running".toList⟩]) := by
  rfl

/-- C8 (amended): for every existing VM whose recorded PID does not
indicate a live hypervisor process, `stop` fails with `VmNotRunning` (the
spec's PreconditionViolated kind) in human mode; in JSON mode it prints a
`success: false` envelope and returns `Ok`. -/
theorem stop_not_running_error (name : List Char) (pidFile : Option (List Char))
    (alive a : Nat → Bool) (h : check_vm_running pidFile alive = false) :
    stop name true pidFile alive a false = .error (.VmNotRunning name) ∧
    stop name true pidFile alive a true =
      .ok ([], [⟨false, "VM ".toList ++ name ++ " is not running".toList⟩]) := by
  constructor <;>
    · unfold stop
      rw [h]
      simp

/-- C8 witness: a VM directory with no `pid` file. -/
theorem stop_not_running_error_instance :
    stop ("a".toList) true none (fun _ => false) (fun _ => false) false =
      .error (.VmNotRunning ("a".toList)) ∧
    stop ("a".toList) true none (fun _ => false) (fun _ => false) true =
      .ok ([], [⟨false, "VM ".toList ++ ("a".toList) ++ " is not running".toList⟩]) :=
  stop_not_running_error ("a".toList) none (fun _ => false) (fun _ => false) rfl

end Meda
